import Mathlib

/-!
Shallow embedding of `create_dataset.py` from the repository
`Songs-recommendation-from-lyrics`, together with proofs of the claims
about the data pipeline (lyrics decoding, relational merging, similarity
filtering and the GNN train/validation split builder).

Python string and list primitives used by the script are modelled
explicitly over `List Char` / `List String`:
  * `str.split(sep)` with an explicit one-character separator keeps empty
    fields and returns `[""]` on the empty string; `pySplit` mirrors this.
  * `sep.join(list)` is `pyJoin`.
  * `str.rstrip()` removes trailing Python whitespace; `rstrip`.
  * `int(s)` / `float(s)` accept surrounding whitespace, an optional sign
    and decimal digits (for `float`, an optional fractional part).  The
    model covers exactly the plain decimal literals that occur in the
    data; exotic Python forms (underscore separators, exponents, inf/nan)
    are outside the model.  `float` values are represented as `Rat`:
    every literal appearing in the development is exactly representable,
    and no arithmetic is ever performed on scores by the script.
  * `list[i]` with Python negative-index semantics is `pyGet`;
    `list.index(x)` is `pyIndex`; `s * n` on strings is `pyRepeat`.
  * a `for`-loop appending to an accumulator, where the body can raise,
    is the fail-fast `mapMO` (equivalent to `List.mapM` in `Option`).
-/

namespace SongsRec

/-- Python whitespace characters stripped by `str.rstrip()` / `str.strip()`. -/
def pyIsSpace (c : Char) : Bool :=
  c == ' ' || c == '\t' || c == '\n' || c == '\r' || c == '\x0b' || c == '\x0c'

/-- Python `str.split(sep)` on character lists: splits at every occurrence of
`sep`, keeping empty fields; the result is never empty. -/
def splitSepList (sep : Char) : List Char → List (List Char)
  | [] => [[]]
  | c :: rest =>
    if c = sep then [] :: splitSepList sep rest
    else
      match splitSepList sep rest with
      | [] => [[c]]
      | h :: t => (c :: h) :: t

/-- Python `sep.join(list)` on character lists. -/
def joinSepList (sep : Char) : List (List Char) → List Char
  | [] => []
  | [w] => w
  | w :: ws => w ++ sep :: joinSepList sep ws

/-- Python `str.split(sep)` for a one-character separator. -/
def pySplit (sep : Char) (s : String) : List String :=
  (splitSepList sep s.data).map (fun l => String.mk l)

/-- Python `sep.join(list)` for a one-character separator. -/
def pyJoin (sep : Char) (l : List String) : String :=
  String.mk (joinSepList sep (l.map String.data))

/-- Python `str.rstrip()` on character lists. -/
def rstripList (l : List Char) : List Char :=
  (l.reverse.dropWhile pyIsSpace).reverse

/-- Python `str.rstrip()`. -/
def rstrip (s : String) : String :=
  String.mk (rstripList s.data)

/-- Python `str.strip()` on character lists. -/
def stripList (l : List Char) : List Char :=
  ((l.dropWhile pyIsSpace).reverse.dropWhile pyIsSpace).reverse

/-- Decimal value of a digit string. -/
def digitsVal (l : List Char) : Nat :=
  l.foldl (fun a c => a * 10 + (c.toNat - 48)) 0

/-- Integer parsing after stripping: optional sign followed by at least one
decimal digit. -/
def pyIntList : List Char → Option Int
  | '-' :: rest =>
    if rest ≠ [] ∧ rest.all Char.isDigit then some (-(digitsVal rest : Int)) else none
  | '+' :: rest =>
    if rest ≠ [] ∧ rest.all Char.isDigit then some (digitsVal rest : Int) else none
  | l =>
    if l ≠ [] ∧ l.all Char.isDigit then some (digitsVal l : Int) else none

/-- Python `int(s)` on plain decimal literals. -/
def pyInt (s : String) : Option Int :=
  pyIntList (stripList s.data)

/-- Unsigned decimal, optionally with a fractional part, as a rational. -/
def pyFloatBody (l : List Char) : Option Rat :=
  match splitSepList '.' l with
  | [ip] =>
    if ip ≠ [] ∧ ip.all Char.isDigit then some (digitsVal ip : Rat) else none
  | [ip, fp] =>
    if (ip ++ fp) ≠ [] ∧ (ip ++ fp).all Char.isDigit then
      some ((digitsVal ip : Rat) + (digitsVal fp : Rat) / (10 ^ fp.length))
    else none
  | _ => none

/-- Python `float(s)` on plain decimal literals, as an exact rational. -/
def pyFloat (s : String) : Option Rat :=
  match stripList s.data with
  | '-' :: rest => (pyFloatBody rest).map (fun q => -q)
  | '+' :: rest => pyFloatBody rest
  | l => pyFloatBody l

/-- Python `list[i]` with negative-index semantics: `l[-1]` is the last
element; out-of-range access is an `IndexError` (`none`). -/
def pyGet (l : List α) (i : Int) : Option α :=
  if 0 ≤ i then l.get? i.toNat
  else if -(l.length : Int) ≤ i then l.get? (l.length - (-i).toNat)
  else none

/-- Python `s * n` for a string and an integer (non-positive `n` gives `""`). -/
def pyRepeat (s : String) (n : Int) : String :=
  String.mk (List.flatten (List.replicate n.toNat s.data))

/-- Python `list.index(x)`: index of the first occurrence, `ValueError`
(`none`) when absent. -/
def pyIndex (x : String) : List String → Option Nat
  | [] => none
  | a :: l => if a = x then some 0 else (pyIndex x l).map (· + 1)

/-- Fail-fast effectful map: a Python loop appending to an accumulator,
whose body may raise. -/
def mapMO (f : α → Option β) : List α → Option (List β)
  | [] => some []
  | a :: l =>
    match f a with
    | none => none
    | some b =>
      match mapMO f l with
      | none => none
      | some bs => some (b :: bs)

/-- Distinct elements of a list in first-occurrence order, skipping those in
`seen`. -/
def dedupFirstAux (seen : List String) : List String → List String
  | [] => []
  | a :: l => if a ∈ seen then dedupFirstAux seen l else a :: dedupFirstAux (a :: seen) l

/-- Distinct elements of a list in first-occurrence order.  Python's
`sorted(set(l).intersection(S), key=l.index)` enumerates the distinct
elements of `l` that lie in `S` by ascending first-occurrence index, which
is exactly `(dedupFirst l).filter (· ∈ S)`. -/
def dedupFirst (l : List String) : List String :=
  dedupFirstAux [] l

/-- Python slice `l[::2]` (flag `true`) and `l[1::2]` (flag `false`). -/
def everyOther (keep : Bool) : List α → List α
  | [] => []
  | a :: l => if keep then a :: everyOther false l else everyOther true l

/-! ## The lyrics decoder (`prepare_mxm_dataset`, `tuple_to_bow`) -/

/-- Row parsing of `prepare_mxm_dataset`: `values = el.split(',')`,
`idx, counts = values[:2], values[2:]`; a line with fewer than two fields
raises `IndexError` at `idx[1]`. -/
def parseMxmRow (line : String) : Option (String × String × List String) :=
  match pySplit ',' line with
  | a :: b :: counts => some (a, b, counts)
  | _ => none

/-- One iteration of the `tuple_to_bow` loop body:
`nums = val.split(':')`, then
`f"{words_list[int(nums[0])-1]} " * int(nums[-1])`.
Python evaluates `int(nums[0])`, then the index access, then
`int(nums[-1])`; any failure raises (`none`). -/
def tokenPiece (words_list : List String) (val : String) : Option String :=
  let nums := pySplit ':' val
  match pyInt (nums.headD "") with
  | none => none
  | some i =>
    match pyGet words_list (i - 1) with
    | none => none
    | some w =>
      match pyInt (nums.getLastD "") with
      | none => none
      | some c => some (pyRepeat (w ++ " ") c)

/-- `tuple_to_bow(val_list, words_list)`: accumulate the pieces into
`lyrics` and return `lyrics.rstrip()`. -/
def tuple_to_bow (val_list : List String) (words_list : List String) : Option String :=
  match mapMO (tokenPiece words_list) val_list with
  | none => none
  | some pieces => some (rstrip (pieces.foldl (· ++ ·) ""))

/-! ## The relational merger (`create_complete_df`, `import_and_merge_tags`)

Rows are modelled as records holding the columns the claims are about.
`pd.merge(left, right, on="track_id")` is an inner one-to-many join whose
output enumerates the left rows in order, and for each left row the
matching right rows in order. -/

/-- A row of the musiXmatch word-count table built by `prepare_mxm_dataset`. -/
structure WcRow where
  track_id : String
  mxm_id : String
  words_count : List String
deriving DecidableEq

/-- A row of the `songs` metadata relation. -/
structure MetaRow where
  track_id : String
  title : String
  artist_name : String
deriving DecidableEq

/-- A row of the Last.fm tags relation. -/
structure TagRow where
  track_id : String
  tag : String
deriving DecidableEq

/-- A row of the merged song table (`full_df` after tags are added). -/
structure SongRow where
  track_id : String
  title : String
  artist_name : String
  lyrics : String
  tag : String
deriving DecidableEq

/-- `pandas.drop_duplicates(key)`: keep the first row for every key value. -/
def dropDupFirstAux (key : α → String) (seen : List String) : List α → List α
  | [] => []
  | a :: l =>
    if key a ∈ seen then dropDupFirstAux key seen l
    else a :: dropDupFirstAux key (key a :: seen) l

/-- `pandas.drop_duplicates(key)` from an empty seen set. -/
def dropDupFirst (key : α → String) (l : List α) : List α :=
  dropDupFirstAux key [] l

/-- The merged table of `create_complete_df` just before deduplication:
inner-join word counts with metadata, reconstruct the lyrics
(`tuple_to_bow` may raise), drop the `mxm_id`/`words_count` columns, and
inner-join with the tags relation. -/
def mergedJoin (df_meta : List MetaRow) (df_data : List WcRow) : List (WcRow × MetaRow) :=
  df_data.flatMap (fun d =>
    (df_meta.filter (fun m => m.track_id == d.track_id)).map (fun m => (d, m)))

/-- Continuation of the merged table: reconstruct the lyrics
(`tuple_to_bow` may raise), drop the `mxm_id`/`words_count` columns, and
inner-join with the tags relation. -/
def merged_with_tags (df_meta : List MetaRow) (df_data : List WcRow)
    (words : List String) (tags_df : List TagRow) : Option (List SongRow) :=
  match mapMO (fun p => (tuple_to_bow p.1.words_count words).map (fun ly =>
    (p.1.track_id, p.2.title, p.2.artist_name, ly))) (mergedJoin df_meta df_data) with
  | none => none
  | some withLyrics =>
    some (withLyrics.flatMap (fun s =>
      (tags_df.filter (fun t => t.track_id == s.1)).map (fun t =>
        SongRow.mk s.1 s.2.1 s.2.2.1 s.2.2.2 t.tag)))

/-- `create_complete_df` composed with `import_and_merge_tags`: the merged
table deduplicated by `track_id` (first occurrence kept,
`drop_duplicates('track_id')`). -/
def create_complete_df (df_meta : List MetaRow) (df_data : List WcRow)
    (words : List String) (tags_df : List TagRow) : Option (List SongRow) :=
  (merged_with_tags df_meta df_data words tags_df).map (dropDupFirst (·.track_id))

/-! ## The similarity graph filter -/

/-- `aggregate_similar(str_list)`: split on commas and pair consecutive
tokens with `zip(sim_list[::2], sim_list[1::2])` (`zip` truncates to the
shorter slice), converting each score with `float`. -/
def aggregate_similar (str_list : String) : Option (List (String × Rat)) :=
  let sim_list := pySplit ',' str_list
  mapMO (fun p => (pyFloat p.2).map (fun q => (p.1, q)))
    ((everyOther true sim_list).zip (everyOther false sim_list))

/-- `check_evaluation_dataset(target, track_id_list)`: keep the neighbor
ids that are in `track_id_list`;
`sorted(set(target_list).intersection(track_id_list), key=target_list.index)`
enumerates the distinct ids present in both, by first-occurrence order. -/
def check_evaluation_dataset (target : String) (track_id_list : List String) : String :=
  pyJoin ','
    ((dedupFirst (pySplit ',' target)).filter (fun t => decide (t ∈ track_id_list)))

/-! ## The GNN split builder -/

/-- `split_sim_scores_id(row, mode)`: ids are the even-position tokens
(`[::2]`), scores the odd-position tokens (`[1::2]`). -/
def split_sim_scores_id (row : String) (mode : Nat) : String :=
  if mode = 1 then pyJoin ',' (everyOther true (pySplit ',' row))
  else pyJoin ',' (everyOther false (pySplit ',' row))

/-- A row of `similar_df` (`evaluate_df`): the merged song columns other
than `track_id` and `target` play no role in any claim and are omitted. -/
structure SimRow where
  track_id : String
  target : String
deriving DecidableEq

/-- A row of `gnn_df` after `target` is split into the two aligned columns. -/
structure GnnRow where
  track_id : String
  similars : String
  sim_scores : String
deriving DecidableEq

/-- Building a `gnn_df` row from a `similar_df` row (lines 298-301). -/
def toGnnRow (r : SimRow) : GnnRow :=
  { track_id := r.track_id
    similars := split_sim_scores_id r.target 1
    sim_scores := split_sim_scores_id r.target 2 }

/-- `check_gnn_dataset(row, track_id_list)`: filter the `similars` column
to the ids present in `track_id_list` (distinct ids by first-occurrence
order, as in `check_evaluation_dataset`), then select the score at the
first-occurrence index of each kept id (`scores_list[i]` raises
`IndexError` when out of range). -/
def gnnPresent (row : GnnRow) (track_id_list : List String) : List String :=
  (dedupFirst (pySplit ',' row.similars)).filter (fun t => decide (t ∈ track_id_list))

/-- Continuation of `check_gnn_dataset`: select the score at the
first-occurrence index of each kept id (`scores_list[i]` raises
`IndexError` when out of range). -/
def check_gnn_dataset (row : GnnRow) (track_id_list : List String) : Option GnnRow :=
  match mapMO (fun t => pyIndex t (pySplit ',' row.similars)) (gnnPresent row track_id_list) with
  | none => none
  | some scores_to_keep =>
    match mapMO (fun i => (pySplit ',' row.sim_scores).get? i) scores_to_keep with
    | none => none
    | some pres_scores =>
      some { row with similars := pyJoin ',' (gnnPresent row track_id_list),
                      sim_scores := pyJoin ',' pres_scores }

/-- `create_gnn_dataset(similar_df, eval_df, val_size)`.  The random
`gnn_df.sample(frac=val_size)` is modelled by an arbitrary index mask
`isVal` choosing the validation rows; every claim proved about the split
is insensitive to which subset is drawn and to the sampled row order, so
rows are kept in original order.  Line 310 passes
`training['track_id'].tolist()` computed from the already-cleaned
training table, which the model mirrors. -/
def gnnPool (similar_df : List SimRow) (eval_ids : List String) : List GnnRow :=
  (similar_df.filter (fun r => !(eval_ids.contains r.track_id))).map toGnnRow

/-- The rows of `gnn_df` drawn by `sample` for validation (`isVal` on the
row position). -/
def gnnValidation0 (similar_df : List SimRow) (eval_ids : List String)
    (isVal : Nat → Bool) : List GnnRow :=
  ((gnnPool similar_df eval_ids).enum.filter (fun p => isVal p.1)).map Prod.snd

/-- The rows of `gnn_df` kept for training (`gnn_df.drop(validation.index)`). -/
def gnnTraining0 (similar_df : List SimRow) (eval_ids : List String)
    (isVal : Nat → Bool) : List GnnRow :=
  ((gnnPool similar_df eval_ids).enum.filter (fun p => !isVal p.1)).map Prod.snd

/-- Cleaning and final length filtering of `create_gnn_dataset` (lines
304-317): clean training against the training `track_id` column, clean
validation against the training `track_id` column re-read after cleaning
(line 310), and apply the `> 0` length filter to both. -/
def create_gnn_dataset (similar_df : List SimRow) (eval_ids : List String)
    (isVal : Nat → Bool) : Option (List GnnRow × List GnnRow) :=
  match mapMO
      (fun r => check_gnn_dataset r
        ((gnnTraining0 similar_df eval_ids isVal).map GnnRow.track_id))
      (gnnTraining0 similar_df eval_ids isVal) with
  | none => none
  | some training1 =>
    match mapMO (fun r => check_gnn_dataset r (training1.map GnnRow.track_id))
        (gnnValidation0 similar_df eval_ids isVal) with
    | none => none
    | some validation1 =>
      some (training1.filter (fun r => (pySplit ',' r.similars).length > 0),
            validation1.filter (fun r => (pySplit ',' r.similars).length > 0))

/-! ## The final `songs_data.csv` exclusion (main, lines 344-345) -/

/-- `full_df = full_df[~full_df['track_id'].isin(eval_df['track_id'])]`:
the rows written to `songs_data.csv`. -/
def songs_data_rows (full_df : List SongRow) (eval_ids : List String) : List SongRow :=
  full_df.filter (fun r => !(eval_ids.contains r.track_id))

/-! ## Lemmas about the Python primitives -/

theorem splitSepList_ne_nil (sep : Char) (l : List Char) : splitSepList sep l ≠ [] := by
  cases l with
  | nil => simp [splitSepList]
  | cons c rest =>
    simp only [splitSepList]
    split
    · simp
    · split <;> simp

theorem sep_not_mem_splitSepList (sep : Char) (l : List Char) :
    ∀ w ∈ splitSepList sep l, sep ∉ w := by
  induction l with
  | nil =>
    intro w hw
    simp only [splitSepList, List.mem_singleton] at hw
    simp [hw]
  | cons c rest ih =>
    intro w hw
    simp only [splitSepList] at hw
    by_cases hc : c = sep
    · rw [if_pos hc] at hw
      rcases List.mem_cons.mp hw with h | h
      · simp [h]
      · exact ih w h
    · rw [if_neg hc] at hw
      rcases hS : splitSepList sep rest with _ | ⟨h0, t⟩
      · exact absurd hS (splitSepList_ne_nil sep rest)
      · rw [hS] at hw
        rcases List.mem_cons.mp hw with h | h
        · subst h
          intro hmem
          rcases List.mem_cons.mp hmem with h' | h'
          · exact hc h'.symm
          · exact ih h0 (by rw [hS]; exact List.mem_cons_self h0 t) h'
        · exact ih w (by rw [hS]; exact List.mem_cons_of_mem h0 h)

theorem splitSepList_of_not_mem (sep : Char) (l : List Char) (h : sep ∉ l) :
    splitSepList sep l = [l] := by
  induction l with
  | nil => rfl
  | cons c rest ih =>
    simp only [splitSepList]
    rw [if_neg (by intro e; subst e; exact h (List.mem_cons_self c rest))]
    rw [ih (fun hm => h (List.mem_cons_of_mem c hm))]

theorem splitSepList_append (sep : Char) (w r : List Char) (h : sep ∉ w) :
    splitSepList sep (w ++ sep :: r) = w :: splitSepList sep r := by
  induction w with
  | nil => simp [splitSepList]
  | cons c cs ih =>
    simp only [List.cons_append, splitSepList, List.append_eq]
    rw [if_neg (by intro e; subst e; exact h (List.mem_cons_self c cs))]
    rw [ih (fun hm => h (List.mem_cons_of_mem c hm))]

theorem splitSepList_joinSepList (sep : Char) (ls : List (List Char)) (hne : ls ≠ [])
    (h : ∀ w ∈ ls, sep ∉ w) : splitSepList sep (joinSepList sep ls) = ls := by
  induction ls with
  | nil => exact absurd rfl hne
  | cons w ws ih =>
    cases ws with
    | nil => exact splitSepList_of_not_mem sep w (h w (List.mem_cons_self w []))
    | cons x xs =>
      have hjoin : joinSepList sep (w :: x :: xs) = w ++ sep :: joinSepList sep (x :: xs) := rfl
      rw [hjoin, splitSepList_append sep w _ (h w (List.mem_cons_self w _))]
      rw [ih (by simp) (fun u hu => h u (List.mem_cons_of_mem w hu))]

theorem pySplit_ne_nil (sep : Char) (s : String) : pySplit sep s ≠ [] := by
  unfold pySplit
  intro h
  exact splitSepList_ne_nil sep s.data (List.map_eq_nil_iff.mp h)

theorem pySplit_length_pos (sep : Char) (s : String) : 0 < (pySplit sep s).length :=
  List.length_pos.mpr (pySplit_ne_nil sep s)

theorem sep_not_mem_of_mem_pySplit (sep : Char) (s : String) :
    ∀ t ∈ pySplit sep s, sep ∉ t.data := by
  intro t ht
  rcases List.mem_map.mp ht with ⟨w, hw, rfl⟩
  exact sep_not_mem_splitSepList sep s.data w hw

theorem pySplit_pyJoin (sep : Char) (l : List String) (hne : l ≠ [])
    (h : ∀ t ∈ l, sep ∉ t.data) : pySplit sep (pyJoin sep l) = l := by
  unfold pySplit pyJoin
  have hdata : (String.mk (joinSepList sep (l.map String.data))).data
      = joinSepList sep (l.map String.data) := rfl
  rw [hdata]
  rw [splitSepList_joinSepList sep _ (by simpa using hne)
      (by intro w hw; rcases List.mem_map.mp hw with ⟨t, ht, rfl⟩; exact h t ht)]
  rw [List.map_map]
  exact List.map_id l

theorem pyJoin_nil (sep : Char) : pyJoin sep [] = "" := rfl

theorem mapMO_eq_some (f : α → Option β) :
    ∀ {l : List α} {l' : List β}, mapMO f l = some l' →
      List.Forall₂ (fun a b => f a = some b) l l' := by
  intro l
  induction l with
  | nil =>
    intro l' h
    simp only [mapMO, Option.some.injEq] at h
    subst h
    exact List.Forall₂.nil
  | cons a t ih =>
    intro l' h
    simp only [mapMO] at h
    cases hfa : f a with
    | none => rw [hfa] at h; simp at h
    | some b =>
      rw [hfa] at h
      cases hmt : mapMO f t with
      | none => rw [hmt] at h; simp at h
      | some bs =>
        rw [hmt] at h
        simp only [Option.some.injEq] at h
        subst h
        exact List.Forall₂.cons hfa (ih hmt)

theorem mapMO_of_forall₂ (f : α → Option β) {l : List α} {l' : List β}
    (h : List.Forall₂ (fun a b => f a = some b) l l') : mapMO f l = some l' := by
  induction h with
  | nil => rfl
  | cons hab _ ih2 =>
    simp only [mapMO]
    rw [hab, ih2]

theorem forall₂_get (R : α → β → Prop) :
    ∀ {l₁ : List α} {l₂ : List β}, List.Forall₂ R l₁ l₂ →
      ∀ i, i < l₁.length → ∃ a b, l₁.get? i = some a ∧ l₂.get? i = some b ∧ R a b := by
  intro l₁ l₂ h
  induction h with
  | nil => intro i hi; simp at hi
  | cons hab htail ih =>
    intro i hi
    cases i with
    | zero => exact ⟨_, _, rfl, rfl, hab⟩
    | succ j =>
      have hj : j < _ := Nat.lt_of_succ_lt_succ (by simpa using hi)
      rcases ih j hj with ⟨a, b, ha, hb, hr⟩
      exact ⟨a, b, by simpa using ha, by simpa using hb, hr⟩

theorem mem_of_mem_dedupFirstAux :
    ∀ (seen l : List String) (x : String), x ∈ dedupFirstAux seen l → x ∈ l := by
  intro seen l
  induction l generalizing seen with
  | nil => intro x hx; simp [dedupFirstAux] at hx
  | cons a t ih =>
    intro x hx
    simp only [dedupFirstAux] at hx
    by_cases ha : a ∈ seen
    · rw [if_pos ha] at hx
      exact List.mem_cons_of_mem a (ih seen x hx)
    · rw [if_neg ha] at hx
      rcases List.mem_cons.mp hx with h | h
      · exact h ▸ List.mem_cons_self a t
      · exact List.mem_cons_of_mem a (ih (a :: seen) x h)

theorem mem_of_mem_dedupFirst (l : List String) (x : String) :
    x ∈ dedupFirst l → x ∈ l :=
  mem_of_mem_dedupFirstAux [] l x

theorem dedupFirstAux_of_nodup :
    ∀ (seen l : List String), l.Nodup → (∀ a ∈ l, a ∉ seen) →
      dedupFirstAux seen l = l := by
  intro seen l
  induction l generalizing seen with
  | nil => intro _ _; rfl
  | cons a t ih =>
    intro hnd hns
    simp only [dedupFirstAux]
    rw [if_neg (hns a (List.mem_cons_self a t))]
    rw [ih (a :: seen) (List.Nodup.of_cons hnd) ?_]
    intro b hb
    intro hbs
    rcases List.mem_cons.mp hbs with h | h
    · exact (List.nodup_cons.mp hnd).1 (h ▸ hb)
    · exact hns b (List.mem_cons_of_mem a hb) h

theorem dedupFirst_of_nodup (l : List String) (h : l.Nodup) : dedupFirst l = l :=
  dedupFirstAux_of_nodup [] l h (by simp)

theorem pyIndex_get (x : String) :
    ∀ (l : List String) (k : Nat), pyIndex x l = some k → l.get? k = some x := by
  intro l
  induction l with
  | nil => intro k h; simp [pyIndex] at h
  | cons a t ih =>
    intro k h
    simp only [pyIndex] at h
    by_cases ha : a = x
    · rw [if_pos ha] at h
      simp only [Option.some.injEq] at h
      subst h
      simp [ha]
    · rw [if_neg ha] at h
      cases hp : pyIndex x t with
      | none => rw [hp] at h; simp at h
      | some k0 =>
        rw [hp] at h
        simp at h
        subst h
        exact ih k0 hp

/-! ## Lemmas about the GNN split builder -/

theorem forall₂_mem_right {R : α → β → Prop} :
    ∀ {l : List α} {l' : List β}, List.Forall₂ R l l' → ∀ b ∈ l', ∃ a ∈ l, R a b := by
  intro l l' h
  induction h with
  | nil => intro b hb; simp at hb
  | cons hab _ ih =>
    intro b hb
    rcases List.mem_cons.mp hb with h | h
    · exact ⟨_, List.mem_cons_self _ _, h ▸ hab⟩
    · rcases ih b h with ⟨a, ha, hr⟩
      exact ⟨a, List.mem_cons_of_mem _ ha, hr⟩

theorem mem_of_mem_enum_filter {l : List α} {p : Nat × α → Bool} {r : α}
    (h : r ∈ (l.enum.filter p).map Prod.snd) : r ∈ l := by
  rcases List.mem_map.mp h with ⟨q, hq, rfl⟩
  have h1 : q ∈ l.enum := List.mem_of_mem_filter hq
  have h2 := List.mem_map_of_mem Prod.snd h1
  rwa [List.enum_map_snd] at h2

/-- `check_gnn_dataset` returns the input row with only the `similars` and
`sim_scores` columns rewritten. -/
theorem check_gnn_track_id {row row' : GnnRow} {ids : List String}
    (h : check_gnn_dataset row ids = some row') : row'.track_id = row.track_id := by
  unfold check_gnn_dataset at h
  split at h
  · exact absurd h (by simp)
  · split at h
    · exact absurd h (by simp)
    · simp only [Option.some.injEq] at h
      subst h
      rfl

/-- Structure of a successful `check_gnn_dataset` call: the output columns
are the comma-joins of a pair of equal-length lists; the kept ids are
members of `track_id_list` drawn from the input `similars` tokens, and
each kept score is the input score at an index where the input `similars`
token equals the kept id. -/
theorem check_gnn_spec {row : GnnRow} {ids : List String} {row' : GnnRow}
    (h : check_gnn_dataset row ids = some row') :
    ∃ present pres_scores : List String,
      row'.track_id = row.track_id ∧
      row'.similars = pyJoin ',' present ∧
      row'.sim_scores = pyJoin ',' pres_scores ∧
      present.length = pres_scores.length ∧
      (∀ t ∈ present, t ∈ ids ∧ t ∈ pySplit ',' row.similars) ∧
      (∀ i, i < present.length →
        ∃ k, (pySplit ',' row.similars).get? k = present.get? i ∧
             (pySplit ',' row.sim_scores).get? k = pres_scores.get? i) := by
  unfold check_gnn_dataset at h
  split at h
  · exact absurd h (by simp)
  next ks h1 =>
    split at h
    · exact absurd h (by simp)
    next ps h2 =>
      simp only [Option.some.injEq] at h
      subst h
      have f1 := mapMO_eq_some _ h1
      have f2 := mapMO_eq_some _ h2
      have e1 : (gnnPresent row ids).length = ks.length := f1.length_eq
      have e2 : ks.length = ps.length := f2.length_eq
      refine ⟨gnnPresent row ids, ps, rfl, rfl, rfl, e1.trans e2, ?_, ?_⟩
      · intro t ht
        have hmf := List.mem_filter.mp ht
        exact ⟨of_decide_eq_true hmf.2,
               mem_of_mem_dedupFirst _ t (List.mem_of_mem_filter ht)⟩
      · intro i hi
        obtain ⟨t, k, hti, hki, hR⟩ := forall₂_get _ f1 i hi
        have hik : i < ks.length := e1 ▸ hi
        obtain ⟨k', sc, hk'i, hsci, hR2⟩ := forall₂_get _ f2 i hik
        have hkk : k' = k := by
          rw [hki] at hk'i
          exact (Option.some.injEq _ _ ▸ hk'i.symm :)
        subst hkk
        refine ⟨k', ?_, ?_⟩
        · rw [pyIndex_get t _ k' hR, hti]
        · rw [hR2, hsci]

/-- Cleaning a table row-by-row preserves its `track_id` column. -/
theorem forall₂_check_map_track {ids : List String} :
    ∀ {l l' : List GnnRow},
      List.Forall₂ (fun r r' => check_gnn_dataset r ids = some r') l l' →
        l'.map GnnRow.track_id = l.map GnnRow.track_id := by
  intro l l' h
  induction h with
  | nil => rfl
  | cons hab _ ih =>
    simp only [List.map_cons]
    rw [check_gnn_track_id hab, ih]

/-- Decomposition of a successful `create_gnn_dataset` run: the returned
training and validation tables are obtained by cleaning a partition of the
evaluation-free candidate pool, the final `> 0` length filter removes
nothing, and cleaning preserves the training `track_id` column. -/
theorem create_gnn_spec {sim : List SimRow} {eval_ids : List String} {isVal : Nat → Bool}
    {tr va : List GnnRow} (h : create_gnn_dataset sim eval_ids isVal = some (tr, va)) :
    (∀ r ∈ gnnTraining0 sim eval_ids isVal,
        ∃ s, s ∈ sim ∧ s.track_id ∉ eval_ids ∧ r = toGnnRow s) ∧
    (∀ r ∈ gnnValidation0 sim eval_ids isVal,
        ∃ s, s ∈ sim ∧ s.track_id ∉ eval_ids ∧ r = toGnnRow s) ∧
    List.Forall₂
      (fun r r' => check_gnn_dataset r
        ((gnnTraining0 sim eval_ids isVal).map GnnRow.track_id) = some r')
      (gnnTraining0 sim eval_ids isVal) tr ∧
    List.Forall₂
      (fun r r' => check_gnn_dataset r (tr.map GnnRow.track_id) = some r')
      (gnnValidation0 sim eval_ids isVal) va ∧
    tr.map GnnRow.track_id = (gnnTraining0 sim eval_ids isVal).map GnnRow.track_id := by
  have horigin : ∀ r ∈ gnnPool sim eval_ids,
      ∃ s, s ∈ sim ∧ s.track_id ∉ eval_ids ∧ r = toGnnRow s := by
    intro r hr
    rcases List.mem_map.mp hr with ⟨s, hs, rfl⟩
    have hm := List.mem_filter.mp hs
    refine ⟨s, hm.1, ?_, rfl⟩
    have hc := hm.2
    simp only [Bool.not_eq_true'] at hc
    simpa using hc
  unfold create_gnn_dataset at h
  split at h
  · exact absurd h (by simp)
  next training1 h1 =>
    split at h
    · exact absurd h (by simp)
    next validation1 h2 =>
      simp only [Option.some.injEq, Prod.mk.injEq] at h
      have hfil : ∀ l : List GnnRow,
          l.filter (fun r => decide ((pySplit ',' r.similars).length > 0)) = l := by
        intro l
        exact List.filter_eq_self.mpr
          (fun r _ => decide_eq_true (pySplit_length_pos ',' r.similars))
      have htr : tr = training1 := by rw [← h.1, hfil]
      have hva : va = validation1 := by rw [← h.2, hfil]
      subst htr
      subst hva
      have hids : tr.map GnnRow.track_id
          = (gnnTraining0 sim eval_ids isVal).map GnnRow.track_id :=
        forall₂_check_map_track (mapMO_eq_some _ h1)
      refine ⟨?_, ?_, mapMO_eq_some _ h1, mapMO_eq_some _ h2, hids⟩
      · intro r hr; exact horigin r (mem_of_mem_enum_filter hr)
      · intro r hr; exact horigin r (mem_of_mem_enum_filter hr)

/-! ## Claims about the split builder -/

/-- Helper for C1/C2: every `track_id` of the cleaned training table avoids
the evaluation set. -/
theorem train_ids_not_eval {sim : List SimRow} {eval_ids : List String}
    {isVal : Nat → Bool} {tr va : List GnnRow}
    (h : create_gnn_dataset sim eval_ids isVal = some (tr, va)) :
    ∀ id0 ∈ tr.map GnnRow.track_id, id0 ∉ eval_ids := by
  obtain ⟨ht0, _, _, _, hids⟩ := create_gnn_spec h
  intro id0 hid0
  rw [hids] at hid0
  rcases List.mem_map.mp hid0 with ⟨r, hr, rfl⟩
  rcases ht0 r hr with ⟨s, _, hse, rfl⟩
  exact hse

/-- Claim C1: in the GNN training split every neighbor id in `similars` is
the `track_id` of a training-split row (no dangling edges), and in the
validation split every neighbor id is a training-split `track_id` and
never an evaluation `track_id`.  (An empty `similars` string encodes an
empty neighbor list.) -/
theorem claim_C1_no_dangling_edges (sim : List SimRow) (eval_ids : List String)
    (isVal : Nat → Bool) (tr va : List GnnRow)
    (h : create_gnn_dataset sim eval_ids isVal = some (tr, va)) :
    (∀ r ∈ tr, r.similars = "" ∨
      ∀ id0 ∈ pySplit ',' r.similars, id0 ∈ tr.map GnnRow.track_id) ∧
    (∀ r ∈ va, r.similars = "" ∨
      ∀ id0 ∈ pySplit ',' r.similars,
        id0 ∈ tr.map GnnRow.track_id ∧ id0 ∉ eval_ids) := by
  obtain ⟨_, _, f1, f2, hids⟩ := create_gnn_spec h
  have hno := train_ids_not_eval h
  constructor
  · intro r hr
    rcases forall₂_mem_right f1 r hr with ⟨r₀, _, hchk⟩
    obtain ⟨present, ps, _, hsim, _, _, hmem, _⟩ := check_gnn_spec hchk
    by_cases hpe : present = []
    · left; rw [hsim, hpe]; rfl
    · right
      intro id0 hid0
      rw [hsim, pySplit_pyJoin ',' present hpe
        (fun t ht => sep_not_mem_of_mem_pySplit ',' r₀.similars t ((hmem t ht).2))] at hid0
      rw [hids]
      exact (hmem id0 hid0).1
  · intro r hr
    rcases forall₂_mem_right f2 r hr with ⟨r₀, _, hchk⟩
    obtain ⟨present, ps, _, hsim, _, _, hmem, _⟩ := check_gnn_spec hchk
    by_cases hpe : present = []
    · left; rw [hsim, hpe]; rfl
    · right
      intro id0 hid0
      rw [hsim, pySplit_pyJoin ',' present hpe
        (fun t ht => sep_not_mem_of_mem_pySplit ',' r₀.similars t ((hmem t ht).2))] at hid0
      have hin := (hmem id0 hid0).1
      exact ⟨hin, hno id0 hin⟩

/-- Witness for C1 at a concrete two-row input. -/
theorem claim_C1_witness :
    (∀ r ∈ [GnnRow.mk "a" "b" "0.5", GnnRow.mk "b" "a" "0.3"], r.similars = "" ∨
      ∀ id0 ∈ pySplit ',' r.similars,
        id0 ∈ [GnnRow.mk "a" "b" "0.5", GnnRow.mk "b" "a" "0.3"].map GnnRow.track_id) ∧
    (∀ r ∈ ([] : List GnnRow), r.similars = "" ∨
      ∀ id0 ∈ pySplit ',' r.similars,
        id0 ∈ [GnnRow.mk "a" "b" "0.5", GnnRow.mk "b" "a" "0.3"].map GnnRow.track_id ∧
          id0 ∉ ([] : List String)) :=
  claim_C1_no_dangling_edges [⟨"a", "b,0.5"⟩, ⟨"b", "a,0.3"⟩] [] (fun _ => false)
    [GnnRow.mk "a" "b" "0.5", GnnRow.mk "b" "a" "0.3"] [] (by decide)

/-- Claim C2: no evaluation `track_id` appears as a row of either GNN
split — every source row whose id is in the evaluation table is excluded
from the candidate pool before the partition. -/
theorem claim_C2_eval_disjoint (sim : List SimRow) (eval_ids : List String)
    (isVal : Nat → Bool) (tr va : List GnnRow)
    (h : create_gnn_dataset sim eval_ids isVal = some (tr, va)) :
    ∀ r, (r ∈ tr ∨ r ∈ va) → r.track_id ∉ eval_ids := by
  obtain ⟨ht0, hv0, f1, f2, hids⟩ := create_gnn_spec h
  intro r hr
  rcases hr with hr | hr
  · exact train_ids_not_eval h r.track_id (List.mem_map_of_mem GnnRow.track_id hr)
  · rcases forall₂_mem_right f2 r hr with ⟨r₀, hr₀, hchk⟩
    rw [check_gnn_track_id hchk]
    rcases hv0 r₀ hr₀ with ⟨s, _, hse, rfl⟩
    exact hse

/-- Witness for C2 at a concrete input with a nonempty evaluation set. -/
theorem claim_C2_witness :
    (GnnRow.mk "a" "" "").track_id ∉ ["e"] :=
  claim_C2_eval_disjoint [⟨"a", "b,0.5"⟩, ⟨"e", "a,0.2"⟩] ["e"] (fun _ => false)
    [GnnRow.mk "a" "" ""] [] (by decide) (GnnRow.mk "a" "" "")
    (Or.inl (List.mem_singleton.mpr rfl))

/-- Claim C3 is a code bug: the "Remove the elements with less than 0
similar songs" filter compares the length of `similars.split(',')` with 0,
but splitting the empty string yields `[""]` of length 1, so a row whose
filtered neighbor list is empty is retained (with `similars = ""`) instead
of being dropped.  Here the only candidate row keeps no neighbor, yet the
training output still contains it. -/
theorem claim_C3_bug :
    create_gnn_dataset [⟨"t1", "x,0.5"⟩] [] (fun _ => false) =
      some ([GnnRow.mk "t1" "" ""], []) := by decide

/-- Claim C6: for every retained row of either GNN split there is a source
row (already outside the evaluation set) such that the retained `similars`
and `sim_scores` columns are the comma-joins of two equal-length lists,
and at every position the kept score is the score paired with the kept
neighbor id in the aligned columns produced by `split_sim_scores_id`
before filtering. -/
theorem claim_C6_parity (sim : List SimRow) (eval_ids : List String)
    (isVal : Nat → Bool) (tr va : List GnnRow)
    (h : create_gnn_dataset sim eval_ids isVal = some (tr, va)) :
    ∀ r ∈ tr ++ va, ∃ s, s ∈ sim ∧ s.track_id ∉ eval_ids ∧
      ∃ present pres_scores : List String,
        r.similars = pyJoin ',' present ∧
        r.sim_scores = pyJoin ',' pres_scores ∧
        present.length = pres_scores.length ∧
        (∀ i, i < present.length →
          ∃ k, (pySplit ',' (toGnnRow s).similars).get? k = present.get? i ∧
               (pySplit ',' (toGnnRow s).sim_scores).get? k = pres_scores.get? i) := by
  obtain ⟨ht0, hv0, f1, f2, _⟩ := create_gnn_spec h
  intro r hr
  rcases List.mem_append.mp hr with hr | hr
  · rcases forall₂_mem_right f1 r hr with ⟨r₀, hr₀, hchk⟩
    rcases ht0 r₀ hr₀ with ⟨s, hs, hse, rfl⟩
    obtain ⟨present, ps, _, hsim, hsc, hlen, _, hpair⟩ := check_gnn_spec hchk
    exact ⟨s, hs, hse, present, ps, hsim, hsc, hlen, hpair⟩
  · rcases forall₂_mem_right f2 r hr with ⟨r₀, hr₀, hchk⟩
    rcases hv0 r₀ hr₀ with ⟨s, hs, hse, rfl⟩
    obtain ⟨present, ps, _, hsim, hsc, hlen, _, hpair⟩ := check_gnn_spec hchk
    exact ⟨s, hs, hse, present, ps, hsim, hsc, hlen, hpair⟩

/-- Witness for C6 at a concrete input: a validation row keeps the second
neighbor of its source row together with that neighbor's own score. -/
theorem claim_C6_witness :
    ∃ s, s ∈ [SimRow.mk "a" "x,0.9,b,0.5", SimRow.mk "b" "a,0.3"] ∧
      s.track_id ∉ ([] : List String) ∧
      ∃ present pres_scores : List String,
        (GnnRow.mk "a" "b" "0.5").similars = pyJoin ',' present ∧
        (GnnRow.mk "a" "b" "0.5").sim_scores = pyJoin ',' pres_scores ∧
        present.length = pres_scores.length ∧
        (∀ i, i < present.length →
          ∃ k, (pySplit ',' (toGnnRow s).similars).get? k = present.get? i ∧
               (pySplit ',' (toGnnRow s).sim_scores).get? k = pres_scores.get? i) :=
  claim_C6_parity [⟨"a", "x,0.9,b,0.5"⟩, ⟨"b", "a,0.3"⟩] [] (fun n => n == 0)
    [GnnRow.mk "b" "" ""] [GnnRow.mk "a" "b" "0.5"] (by decide)
    (GnnRow.mk "a" "b" "0.5") (by decide)

/-! ## Claims C7 and C10 -/

/-- The specification's stable filter: the members of the neighbor list
that lie in the membership set, in their original relative order. -/
def stableFilter (l : List String) (ids : List String) : List String :=
  l.filter (fun t => decide (t ∈ ids))

/-- Claim C7 is refuted on lists with duplicate neighbor ids: the code's
`set(target_list).intersection(...)` collapses each id to a single
occurrence (kept at its first-occurrence position), so on `"A,B,A"` with
membership set `{A,B}` it returns `"A,B"` while the claim's stable filter
keeps every occurrence and yields `"A,B,A"`. -/
theorem claim_C7_counterexample :
    check_evaluation_dataset "A,B,A" ["A", "B"] = "A,B" ∧
    pyJoin ',' (stableFilter (pySplit ',' "A,B,A") ["A", "B"]) = "A,B,A" ∧
    check_evaluation_dataset "A,B,A" ["A", "B"]
      ≠ pyJoin ',' (stableFilter (pySplit ',' "A,B,A") ["A", "B"]) := by
  refine ⟨by decide, by decide, by decide⟩

/-- Claim C7 as amended: on a neighbor list without duplicate ids the
evaluation filter returns exactly the neighbors belonging to the
membership set, in their original relative order in the input list (a
stable filter, not an order derived from the membership set); a list with
duplicate ids instead keeps each distinct id once, at its first
occurrence, as the counterexample shows. -/
theorem claim_C7_stable_filter (target : String) (ids : List String)
    (hnd : (pySplit ',' target).Nodup) :
    check_evaluation_dataset target ids
      = pyJoin ',' (stableFilter (pySplit ',' target) ids) := by
  unfold check_evaluation_dataset stableFilter
  rw [dedupFirst_of_nodup _ hnd]

/-- Witness for C7 at the specification's own example: neighbors
`[A,B,C,D]` with membership set `{D,B}` give `B,D`. -/
theorem claim_C7_witness :
    ((pySplit ',' "A,B,C,D").Nodup ∧
      check_evaluation_dataset "A,B,C,D" ["D", "B"]
        = pyJoin ',' (stableFilter (pySplit ',' "A,B,C,D") ["D", "B"])) ∧
    check_evaluation_dataset "A,B,C,D" ["D", "B"] = "B,D" :=
  ⟨⟨by decide, claim_C7_stable_filter "A,B,C,D" ["D", "B"] (by decide)⟩, by decide⟩

/-- Claim C10: the rows written to `songs_data.csv` exclude every row
whose `track_id` appears in the evaluation table, so the saved table's
`track_id` set is disjoint from the evaluation `track_id` set. -/
theorem claim_C10_songs_data_disjoint (full_df : List SongRow) (eval_ids : List String) :
    ∀ id0 ∈ (songs_data_rows full_df eval_ids).map SongRow.track_id, id0 ∉ eval_ids := by
  intro id0 hid0
  rcases List.mem_map.mp hid0 with ⟨r, hr, rfl⟩
  have hm := List.mem_filter.mp hr
  have hc := hm.2
  simp only [Bool.not_eq_true'] at hc
  simpa using hc

/-- Witness for C10 at a concrete two-row table. -/
theorem claim_C10_witness : "a" ∉ ["b"] :=
  claim_C10_songs_data_disjoint
    [⟨"a", "t", "ar", "ly", "tg"⟩, ⟨"b", "t2", "ar2", "ly2", "tg2"⟩] ["b"] "a"
    (by decide)

/-! ## Lemmas about deduplication and the merger (C9) -/

theorem mem_of_mem_dropDupFirstAux (key : α → String) :
    ∀ (seen : List String) (l : List α) (a : α),
      a ∈ dropDupFirstAux key seen l → a ∈ l := by
  intro seen l
  induction l generalizing seen with
  | nil => intro a ha; simp [dropDupFirstAux] at ha
  | cons b t ih =>
    intro a ha
    simp only [dropDupFirstAux] at ha
    by_cases hb : key b ∈ seen
    · rw [if_pos hb] at ha
      exact List.mem_cons_of_mem b (ih seen a ha)
    · rw [if_neg hb] at ha
      rcases List.mem_cons.mp ha with h | h
      · exact h ▸ List.mem_cons_self b t
      · exact List.mem_cons_of_mem b (ih (key b :: seen) a h)

theorem dropDupFirstAux_nodup_avoid (key : α → String) :
    ∀ (seen : List String) (l : List α),
      ((dropDupFirstAux key seen l).map key).Nodup ∧
      ∀ a ∈ dropDupFirstAux key seen l, key a ∉ seen := by
  intro seen l
  induction l generalizing seen with
  | nil => exact ⟨List.nodup_nil, by simp [dropDupFirstAux]⟩
  | cons a t ih =>
    by_cases ha : key a ∈ seen
    · simpa only [dropDupFirstAux, if_pos ha] using ih seen
    · simp only [dropDupFirstAux, if_neg ha]
      obtain ⟨hnd, havoid⟩ := ih (key a :: seen)
      refine ⟨?_, ?_⟩
      · simp only [List.map_cons, List.nodup_cons]
        refine ⟨?_, hnd⟩
        intro hmem
        rcases List.mem_map.mp hmem with ⟨b, hb, hkb⟩
        exact havoid b hb (by rw [hkb]; exact List.mem_cons_self _ _)
      · intro b hb
        rcases List.mem_cons.mp hb with h | h
        · rw [h]; exact ha
        · exact fun hbs => havoid b h (List.mem_cons_of_mem _ hbs)

theorem dropDupFirstAux_filter (key : α → String) :
    ∀ (seen : List String) (l : List α) (k : String),
      (dropDupFirstAux key seen l).filter (fun r => key r == k)
        = if k ∈ seen then [] else (l.filter (fun r => key r == k)).take 1 := by
  intro seen l
  induction l generalizing seen with
  | nil =>
    intro k
    by_cases hk : k ∈ seen <;> simp [dropDupFirstAux, hk]
  | cons a t ih =>
    intro k
    simp only [dropDupFirstAux]
    by_cases ha : key a ∈ seen
    · rw [if_pos ha]
      by_cases hk : k ∈ seen
      · simp [ih seen k, hk]
      · have hne : (key a == k) = false := beq_eq_false_iff_ne.mpr (fun e => hk (e ▸ ha))
        simp [ih seen k, hk, List.filter_cons, hne]
    · rw [if_neg ha]
      by_cases hak : key a = k
      · subst hak
        simp [List.filter_cons, ih (key a :: seen) (key a), ha, List.mem_cons]
      · have hne : (key a == k) = false := beq_eq_false_iff_ne.mpr hak
        have hka : ¬k = key a := fun e => hak e.symm
        simp [List.filter_cons, hne, ih (key a :: seen) k, List.mem_cons, hka]

/-- Every row of the merged (pre-dedup) table takes its `track_id` from a
word-count row. -/
theorem merged_with_tags_track {df_meta : List MetaRow} {df_data : List WcRow}
    {words : List String} {tags_df : List TagRow} {full : List SongRow}
    (h : merged_with_tags df_meta df_data words tags_df = some full) :
    ∀ r ∈ full, r.track_id ∈ df_data.map WcRow.track_id := by
  unfold merged_with_tags at h
  split at h
  · exact absurd h (by simp)
  next withLyrics h1 =>
    simp only [Option.some.injEq] at h
    subst h
    intro r hr
    rcases List.mem_flatMap.mp hr with ⟨s, hs, hmem⟩
    rcases List.mem_map.mp hmem with ⟨tg, htg, rfl⟩
    rcases forall₂_mem_right (mapMO_eq_some _ h1) s hs with ⟨p, hp, hps⟩
    rcases Option.map_eq_some'.mp hps with ⟨ly, _, hly⟩
    unfold mergedJoin at hp
    rcases List.mem_flatMap.mp hp with ⟨d, hd, hdm⟩
    rcases List.mem_map.mp hdm with ⟨m, _, rfl⟩
    subst hly
    exact List.mem_map_of_mem WcRow.track_id hd

/-- Claim C9: the merger output's `track_id`s all come from the word-count
table, no `track_id` appears in more than one output row, and for every
`track_id` the retained row is exactly the first matching row of the
pre-dedup merged table (deduplication keeps the first occurrence). -/
theorem claim_C9_merger (df_meta : List MetaRow) (df_data : List WcRow)
    (words : List String) (tags_df : List TagRow) (full out : List SongRow)
    (hm : merged_with_tags df_meta df_data words tags_df = some full)
    (hc : create_complete_df df_meta df_data words tags_df = some out) :
    (∀ r ∈ out, r.track_id ∈ df_data.map WcRow.track_id) ∧
    (out.map SongRow.track_id).Nodup ∧
    (∀ k, out.filter (fun r => r.track_id == k)
        = (full.filter (fun r => r.track_id == k)).take 1) := by
  have hout : out = dropDupFirst SongRow.track_id full := by
    unfold create_complete_df at hc
    rw [hm] at hc
    simpa using hc.symm
  subst hout
  refine ⟨?_, ?_, ?_⟩
  · intro r hr
    exact merged_with_tags_track hm r (mem_of_mem_dropDupFirstAux _ [] full r hr)
  · exact (dropDupFirstAux_nodup_avoid SongRow.track_id [] full).1
  · intro k
    simpa using dropDupFirstAux_filter SongRow.track_id [] full k

/-- Witness for C9 at a concrete input where the tags join duplicates the
single song (tags `rock` and `pop`); dedup keeps the `rock` row. -/
theorem claim_C9_witness :
    (∀ r ∈ [SongRow.mk "t" "T" "A" "w" "rock"],
        r.track_id ∈ [WcRow.mk "t" "m" ["1:1"]].map WcRow.track_id) ∧
    (([SongRow.mk "t" "T" "A" "w" "rock"]).map SongRow.track_id).Nodup ∧
    (∀ k, ([SongRow.mk "t" "T" "A" "w" "rock"]).filter (fun r => r.track_id == k)
        = (([SongRow.mk "t" "T" "A" "w" "rock",
             SongRow.mk "t" "T" "A" "w" "pop"]).filter
            (fun r => r.track_id == k)).take 1) :=
  claim_C9_merger [⟨"t", "T", "A"⟩] [⟨"t", "m", ["1:1"]⟩] ["w"]
    [⟨"t", "rock"⟩, ⟨"t", "pop"⟩]
    [SongRow.mk "t" "T" "A" "w" "rock", SongRow.mk "t" "T" "A" "w" "pop"]
    [SongRow.mk "t" "T" "A" "w" "rock"] (by decide) (by decide)

/-! ## Claim C4: parsing of the raw similarity string -/

theorem mapMO_isSome (f : α → Option β) :
    ∀ (l : List α), (∀ a ∈ l, (f a).isSome) →
      ∃ l', mapMO f l = some l' ∧ l'.length = l.length := by
  intro l
  induction l with
  | nil => exact fun _ => ⟨[], rfl, rfl⟩
  | cons a t ih =>
    intro hall
    obtain ⟨b, hb⟩ := Option.isSome_iff_exists.mp (hall a (List.mem_cons_self a t))
    obtain ⟨l', hl', hlen⟩ := ih (fun x hx => hall x (List.mem_cons_of_mem a hx))
    refine ⟨b :: l', ?_, by simpa using hlen⟩
    simp only [mapMO]
    rw [hb, hl']

theorem everyOther_length (l : List α) :
    (everyOther true l).length = (l.length + 1) / 2 ∧
    (everyOther false l).length = l.length / 2 := by
  induction l with
  | nil => simp [everyOther]
  | cons a t ih =>
    obtain ⟨h1, h2⟩ := ih
    constructor
    · show (a :: everyOther false t).length = ((a :: t).length + 1) / 2
      simp only [List.length_cons]
      omega
    · show (everyOther true t).length = (a :: t).length / 2
      simp only [List.length_cons]
      omega

/-- Claim C4 is refuted: an odd comma-separated token count does not make
`aggregate_similar` fail; `zip` silently drops the final unpaired token.
On `"a,1.0,b"` (three tokens) the parse succeeds with the single pair for
`"a"`, discarding `"b"`. -/
theorem claim_C4_counterexample :
    (∃ q : Rat, aggregate_similar "a,1.0,b" = some [("a", q)]) ∧
    (pySplit ',' "a,1.0,b").length % 2 = 1 :=
  ⟨⟨_, rfl⟩, by decide⟩

/-- Claim C4 as amended: on an odd token count whose score tokens all
parse as floats, `aggregate_similar` succeeds and returns one pair per
complete token pair, silently discarding the final unpaired token rather
than raising a parse error. -/
theorem claim_C4_amended (s : String)
    (hodd : (pySplit ',' s).length % 2 = 1)
    (hparse : ∀ t ∈ everyOther false (pySplit ',' s), (pyFloat t).isSome) :
    ∃ l, aggregate_similar s = some l ∧
      l.length = (pySplit ',' s).length / 2 := by
  unfold aggregate_similar
  have hall : ∀ p ∈ (everyOther true (pySplit ',' s)).zip (everyOther false (pySplit ',' s)),
      ((pyFloat p.2).map (fun q => (p.1, q))).isSome := by
    intro p hp
    have hp2 := (List.of_mem_zip hp).2
    rcases Option.isSome_iff_exists.mp (hparse p.2 hp2) with ⟨q, hq⟩
    rw [hq]
    rfl
  obtain ⟨l, hl, hlen⟩ := mapMO_isSome _ _ hall
  refine ⟨l, hl, ?_⟩
  rw [hlen, List.length_zip, (everyOther_length (pySplit ',' s)).1,
      (everyOther_length (pySplit ',' s)).2]
  omega

/-- Witness for the amended C4 at the three-token input. -/
theorem claim_C4_amended_witness :
    ∃ l, aggregate_similar "a,1.0,b" = some l ∧
      l.length = (pySplit ',' "a,1.0,b").length / 2 :=
  claim_C4_amended "a,1.0,b" (by decide) (by decide)

/-! ## Claim C8: lyrics reconstruction -/

/-- Concatenation of words, each followed by one space (the shape of the
`lyrics` accumulator before `rstrip`). -/
def concatWS (ws : List (List Char)) : List Char :=
  (ws.map (· ++ [' '])).flatten

/-- Modelled from the spec's reconstruction rule (§4.1): the vocabulary
word at 1-based position `idx`, repeated `count` times, space-joined, in
the order the pairs appear. -/
def specReconstruct (pairs : List (Int × Int)) (words : List String) : String :=
  pyJoin ' '
    (pairs.flatMap (fun p => List.replicate p.2.toNat (words.getD (p.1 - 1).toNat "")))

theorem concatWS_cons (w : List Char) (ws : List (List Char)) :
    concatWS (w :: ws) = (w ++ [' ']) ++ concatWS ws := by
  simp [concatWS]

theorem concatWS_append (l₁ l₂ : List (List Char)) :
    concatWS (l₁ ++ l₂) = concatWS l₁ ++ concatWS l₂ := by
  simp [concatWS]

theorem concatWS_eq_join (ws : List (List Char)) (h : ws ≠ []) :
    concatWS ws = joinSepList ' ' ws ++ [' '] := by
  induction ws with
  | nil => exact absurd rfl h
  | cons w t ih =>
    cases t with
    | nil => simp [concatWS, joinSepList]
    | cons x xs =>
      rw [concatWS_cons, ih (by simp)]
      show (w ++ [' ']) ++ (joinSepList ' ' (x :: xs) ++ [' '])
          = (w ++ ' ' :: joinSepList ' ' (x :: xs)) ++ [' ']
      simp

theorem rstripList_append_space (l : List Char) :
    rstripList (l ++ [' ']) = rstripList l := by
  unfold rstripList
  rw [List.reverse_append]
  simp [List.dropWhile_cons, pyIsSpace]

theorem rstripList_eq_self {l : List Char} {c : Char}
    (h : l.getLast? = some c) (hc : pyIsSpace c = false) : rstripList l = l := by
  unfold rstripList
  have hrev : l.reverse.head? = some c := by rw [List.head?_reverse]; exact h
  cases hl : l.reverse with
  | nil => rw [hl] at hrev; simp at hrev
  | cons c0 t =>
    rw [hl] at hrev
    simp only [List.head?_cons, Option.some.injEq] at hrev
    subst hrev
    have hd : List.dropWhile pyIsSpace (c0 :: t) = c0 :: t := by
      rw [List.dropWhile_cons, hc]
      simp
    rw [hd, ← hl, List.reverse_reverse]

theorem joinSepList_cons_ne_nil (x : List Char) (xs : List (List Char)) (hx : x ≠ []) :
    joinSepList ' ' (x :: xs) ≠ [] := by
  cases xs with
  | nil => exact hx
  | cons y ys =>
    show x ++ ' ' :: joinSepList ' ' (y :: ys) ≠ []
    simp

theorem joinSepList_getLast (ws : List (List Char)) (hne : ws ≠ [])
    (h : ∀ w ∈ ws, w ≠ []) :
    ∃ w0 ∈ ws, (joinSepList ' ' ws).getLast? = w0.getLast? := by
  induction ws with
  | nil => exact absurd rfl hne
  | cons w t ih =>
    cases t with
    | nil => exact ⟨w, List.mem_cons_self _ _, rfl⟩
    | cons x xs =>
      obtain ⟨w0, hw0, he⟩ := ih (by simp) (fun u hu => h u (List.mem_cons_of_mem w hu))
      refine ⟨w0, List.mem_cons_of_mem w hw0, ?_⟩
      have hw0ne : w0 ≠ [] := h w0 (List.mem_cons_of_mem w hw0)
      have hJne : joinSepList ' ' (x :: xs) ≠ [] :=
        joinSepList_cons_ne_nil x xs (h x (List.mem_cons_of_mem w (List.mem_cons_self x xs)))
      show (w ++ ' ' :: joinSepList ' ' (x :: xs)).getLast? = w0.getLast?
      rw [List.getLast?_append]
      cases hJ : joinSepList ' ' (x :: xs) with
      | nil => exact absurd hJ hJne
      | cons j t0 =>
        rw [hJ] at he
        rw [List.getLast?_cons_cons, he, List.getLast?_eq_getLast w0 hw0ne]
        rfl

theorem rstripList_concatWS (ws : List (List Char))
    (h : ∀ w ∈ ws, w ≠ [] ∧ ∀ c ∈ w, pyIsSpace c = false) :
    rstripList (concatWS ws) = joinSepList ' ' ws := by
  cases ws with
  | nil => rfl
  | cons w t =>
    rw [concatWS_eq_join _ (by simp), rstripList_append_space]
    obtain ⟨w0, hw0, he⟩ :=
      joinSepList_getLast (w :: t) (by simp) (fun u hu => (h u hu).1)
    have hw0ne : w0 ≠ [] := (h w0 hw0).1
    have hlast : (joinSepList ' ' (w :: t)).getLast? = some (w0.getLast hw0ne) := by
      rw [he, List.getLast?_eq_getLast w0 hw0ne]
    exact rstripList_eq_self hlast ((h w0 hw0).2 _ (List.getLast_mem hw0ne))

theorem foldl_append_data :
    ∀ (pieces : List String) (s : String),
      (pieces.foldl (· ++ ·) s).data = s.data ++ (pieces.map String.data).flatten := by
  intro pieces
  induction pieces with
  | nil => intro s; simp
  | cons a t ih =>
    intro s
    show (t.foldl (· ++ ·) (s ++ a)).data = _
    rw [ih (s ++ a), String.data_append]
    simp

theorem pyRepeat_data (w : String) (n : Int) :
    (pyRepeat (w ++ " ") n).data = concatWS (List.replicate n.toNat w.data) := by
  unfold pyRepeat concatWS
  show (List.replicate n.toNat (w ++ " ").data).flatten = _
  rw [String.data_append, List.map_replicate]

theorem flatten_map_concatWS (f : β → List (List Char)) (l : List β) :
    (l.map (fun b => concatWS (f b))).flatten = concatWS (l.flatMap f) := by
  induction l with
  | nil => rfl
  | cons b t ih => simp [concatWS_append, ih]

theorem tokenPiece_eval {words : List String} {val : String} {p : Int × Int}
    (h1 : pyInt ((pySplit ':' val).headD "") = some p.1)
    (h2 : pyInt ((pySplit ':' val).getLastD "") = some p.2)
    (hge : 1 ≤ p.1) (hle : p.1 ≤ (words.length : Int)) :
    tokenPiece words val
      = some (pyRepeat (words.getD (p.1 - 1).toNat "" ++ " ") p.2) := by
  have hidx : (p.1 - 1).toNat < words.length := by omega
  have hg : words.get? (p.1 - 1).toNat = some (words.get ⟨(p.1 - 1).toNat, hidx⟩) :=
    List.get?_eq_get hidx
  have hget : pyGet words (p.1 - 1) = some (words.getD (p.1 - 1).toNat "") := by
    unfold pyGet
    rw [if_pos (by omega : (0 : Int) ≤ p.1 - 1)]
    rw [List.getD_eq_get?, hg]
    rfl
  simp only [tokenPiece, h1, hget, h2]

/-- Claim C8: when every token of a word-count record parses to a 1-based
in-range index and a positive count, `tuple_to_bow` returns exactly the
spec's reconstruction — the vocabulary word at each index repeated its
count of times, space-joined, in input order. -/
theorem claim_C8_reconstruction (val_list words : List String) (pairs : List (Int × Int))
    (hp : List.Forall₂ (fun val p =>
        pyInt ((pySplit ':' val).headD "") = some p.1 ∧
        pyInt ((pySplit ':' val).getLastD "") = some p.2 ∧
        1 ≤ p.1 ∧ p.1 ≤ (words.length : Int) ∧ 1 ≤ p.2) val_list pairs)
    (hw : ∀ w ∈ words, w.data ≠ [] ∧ ∀ c ∈ w.data, pyIsSpace c = false) :
    tuple_to_bow val_list words = some (specReconstruct pairs words) := by
  have hmap : mapMO (tokenPiece words) val_list
      = some (pairs.map (fun p => pyRepeat (words.getD (p.1 - 1).toNat "" ++ " ") p.2)) := by
    apply mapMO_of_forall₂
    rw [List.forall₂_map_right_iff]
    exact List.Forall₂.imp
      (fun val p hh => tokenPiece_eval hh.1 hh.2.1 hh.2.2.1 hh.2.2.2.1) hp
  unfold tuple_to_bow
  rw [hmap]
  show some (rstrip _) = _
  refine congrArg some ?_
  unfold rstrip specReconstruct pyJoin
  refine congrArg String.mk ?_
  rw [foldl_append_data]
  show rstripList ([] ++ _) = _
  rw [List.nil_append, List.map_map]
  have hpieces :
      (pairs.map (String.data ∘ fun p =>
          pyRepeat (words.getD (p.1 - 1).toNat "" ++ " ") p.2)).flatten
        = concatWS (pairs.flatMap
            (fun p => List.replicate p.2.toNat (words.getD (p.1 - 1).toNat "").data)) := by
    rw [← flatten_map_concatWS]
    refine congrArg List.flatten ?_
    refine List.map_congr_left ?_
    intro p _
    exact pyRepeat_data (words.getD (p.1 - 1).toNat "") p.2
  rw [hpieces]
  have hflat :
      (pairs.flatMap
          (fun p => List.replicate p.2.toNat (words.getD (p.1 - 1).toNat ""))).map String.data
        = pairs.flatMap
            (fun p => List.replicate p.2.toNat (words.getD (p.1 - 1).toNat "").data) := by
    rw [List.map_flatMap]
    refine List.flatMap_congr ?_
    intro p _
    rw [List.map_replicate]
  rw [← hflat]
  apply rstripList_concatWS
  intro wd hwd
  rcases List.mem_map.mp hwd with ⟨ws0, hws0, rfl⟩
  rcases List.mem_flatMap.mp hws0 with ⟨p, hpmem, hrep⟩
  have hws0eq := List.eq_of_mem_replicate hrep
  subst hws0eq
  rcases forall₂_mem_right hp p hpmem with ⟨val, _, hR⟩
  obtain ⟨_, _, hge, hle, _⟩ := hR
  have hidx : (p.1 - 1).toNat < words.length := by omega
  have hmem : words.getD (p.1 - 1).toNat "" ∈ words := by
    rw [List.getD_eq_get?, List.get?_eq_get hidx]
    exact List.get_mem words _ hidx
  exact hw _ hmem

/-- Witness for C8 at the spec's own example: a 3-word vocabulary with
counts `{1:2, 3:1}` reconstructs to `"word1 word1 word3"`. -/
theorem claim_C8_witness :
    tuple_to_bow ["1:2", "3:1"] ["word1", "word2", "word3"]
        = some (specReconstruct [(1, 2), (3, 1)] ["word1", "word2", "word3"]) ∧
    specReconstruct [(1, 2), (3, 1)] ["word1", "word2", "word3"]
        = "word1 word1 word3" :=
  ⟨claim_C8_reconstruction ["1:2", "3:1"] ["word1", "word2", "word3"] [(1, 2), (3, 1)]
      (by decide) (by decide),
   by decide⟩

/-! ## Claim C5: decoder error handling -/

theorem mapMO_none_of_mem (f : α → Option β) :
    ∀ (l : List α) (a : α), a ∈ l → f a = none → mapMO f l = none := by
  intro l
  induction l with
  | nil => intro a ha; simp at ha
  | cons b t ih =>
    intro a ha hfa
    rcases List.mem_cons.mp ha with h | h
    · subst h
      simp only [mapMO, hfa]
    · cases hfb : f b with
      | none => simp only [mapMO, hfb]
      | some v => simp only [mapMO, hfb, ih a h hfa]

theorem pyGet_none (l : List α) (i : Int)
    (h : (l.length : Int) ≤ i ∨ i < -(l.length : Int)) : pyGet l i = none := by
  unfold pyGet
  rcases h with h | h
  · rw [if_pos (by omega : (0 : Int) ≤ i)]
    rw [List.get?_eq_none]
    omega
  · rw [if_neg (by omega : ¬(0 : Int) ≤ i), if_neg (by omega : ¬-(l.length : Int) ≤ i)]

/-- A failing token makes the whole `tuple_to_bow` call fail. -/
theorem tuple_to_bow_none {words val_list : List String} {val : String}
    (hmem : val ∈ val_list) (htok : tokenPiece words val = none) :
    tuple_to_bow val_list words = none := by
  unfold tuple_to_bow
  rw [mapMO_none_of_mem _ val_list val hmem htok]

/-- Evaluation of one token whose 1-based index is zero or negative but
within Python's negative-indexing range: the word is drawn from the end
of the vocabulary. -/
theorem tokenPiece_eval_neg {words : List String} {val : String} {p : Int × Int}
    (h1 : pyInt ((pySplit ':' val).headD "") = some p.1)
    (h2 : pyInt ((pySplit ':' val).getLastD "") = some p.2)
    (hlb : -(words.length : Int) ≤ p.1 - 1) (hub : p.1 - 1 < 0) :
    tokenPiece words val = some (pyRepeat
      (words.getD (words.length - (-(p.1 - 1)).toNat) "" ++ " ") p.2) := by
  have hidx : words.length - (-(p.1 - 1)).toNat < words.length := by omega
  have hg : words.get? (words.length - (-(p.1 - 1)).toNat)
      = some (words.get ⟨words.length - (-(p.1 - 1)).toNat, hidx⟩) :=
    List.get?_eq_get hidx
  have hget : pyGet words (p.1 - 1)
      = some (words.getD (words.length - (-(p.1 - 1)).toNat) "") := by
    unfold pyGet
    rw [if_neg (by omega : ¬(0 : Int) ≤ p.1 - 1), if_pos hlb]
    rw [List.getD_eq_get?, hg]
    rfl
  simp only [tokenPiece, h1, hget, h2]

/-- Claim C5 is refuted: an index of `0` raises no error; Python's negative
indexing makes `words_list[0-1]` the last vocabulary word, so the decoder
silently selects `"word3"` for index `0` on a 3-word vocabulary. -/
theorem claim_C5_counterexample :
    tuple_to_bow ["0:1"] ["word1", "word2", "word3"] = some "word3" := by decide

/-- Claim C5 as amended: a line with fewer than two comma fields fails; a
non-integer index or count token fails; a 1-based index beyond the
vocabulary size (or below the negative-indexing range) fails; but an index
of `0` does not raise — it silently selects the last vocabulary word. -/
theorem claim_C5_amended :
    (∀ line : String, (pySplit ',' line).length < 2 → parseMxmRow line = none) ∧
    (∀ (words val_list : List String) (val : String), val ∈ val_list →
      pyInt ((pySplit ':' val).headD "") = none →
      tuple_to_bow val_list words = none) ∧
    (∀ (words val_list : List String) (val : String), val ∈ val_list →
      pyInt ((pySplit ':' val).getLastD "") = none →
      tuple_to_bow val_list words = none) ∧
    (∀ (words val_list : List String) (val : String) (i : Int), val ∈ val_list →
      pyInt ((pySplit ':' val).headD "") = some i →
      ((words.length : Int) < i ∨ i ≤ -(words.length : Int)) →
      tuple_to_bow val_list words = none) ∧
    (∀ words : List String, words ≠ [] →
      (∀ w ∈ words, w.data ≠ [] ∧ ∀ c ∈ w.data, pyIsSpace c = false) →
      tuple_to_bow ["0:1"] words = some (words.getLastD "")) := by
  refine ⟨?_, ?_, ?_, ?_, ?_⟩
  · intro line hlen
    unfold parseMxmRow
    cases hs : pySplit ',' line with
    | nil => rfl
    | cons a t =>
      cases t with
      | nil => rfl
      | cons b u =>
        rw [hs] at hlen
        simp only [List.length_cons] at hlen
        omega
  · intro words val_list val hmem h1
    exact tuple_to_bow_none hmem (by simp only [tokenPiece, h1])
  · intro words val_list val hmem hlast
    refine tuple_to_bow_none hmem ?_
    cases h1 : pyInt ((pySplit ':' val).headD "") with
    | none => simp only [tokenPiece, h1]
    | some i =>
      cases h2 : pyGet words (i - 1) with
      | none => simp only [tokenPiece, h1, h2]
      | some w => simp only [tokenPiece, h1, h2, hlast]
  · intro words val_list val i hmem h1 hrange
    refine tuple_to_bow_none hmem ?_
    have hnone : pyGet words (i - 1) = none := pyGet_none words (i - 1) (by omega)
    simp only [tokenPiece, h1, hnone]
  · intro words hne hcl
    have hlen : 0 < words.length := List.length_pos.mpr hne
    have hidx : words.length - 1 < words.length := by omega
    have htok : tokenPiece words "0:1" = some (pyRepeat
        (words.getD (words.length - 1) "" ++ " ") 1) := by
      have := @tokenPiece_eval_neg words "0:1" ((0 : Int), (1 : Int))
        (by decide) (by decide) (by simpa using (by omega : -(words.length : Int) ≤ -1))
        (by omega)
      simpa using this
    have hw : words.getD (words.length - 1) "" = words.getLastD "" := by
      rw [List.getD_eq_get?, List.get?_eq_get hidx]
      rw [List.getLastD_eq_getLast?, List.getLast?_eq_getLast words hne]
      rw [List.getLast_eq_get]
    have hmap : mapMO (tokenPiece words) ["0:1"]
        = some [pyRepeat (words.getD (words.length - 1) "" ++ " ") 1] := by
      simp only [mapMO, htok]
    unfold tuple_to_bow
    rw [hmap]
    show some (rstrip _) = _
    refine congrArg some ?_
    have hdata : (([pyRepeat (words.getD (words.length - 1) "" ++ " ") 1]).foldl
        (· ++ ·) "").data = concatWS [(words.getD (words.length - 1) "").data] := by
      rw [foldl_append_data]
      show [] ++ ((pyRepeat (words.getD (words.length - 1) "" ++ " ") 1).data ++ []) = _
      rw [List.nil_append, List.append_nil, pyRepeat_data]
      rfl
    have hmem : words.getD (words.length - 1) "" ∈ words := by
      rw [List.getD_eq_get?, List.get?_eq_get hidx]
      exact List.get_mem words _ hidx
    unfold rstrip
    rw [hdata, rstripList_concatWS _ ?cond]
    case cond =>
      intro wd hwd
      rcases List.mem_singleton.mp hwd with rfl
      exact hcl _ hmem
    show String.mk (words.getD (words.length - 1) "").data = _
    rw [hw]

/-- Witness for the amended C5: each failure mode at a concrete input, and
the index-0 escape hatch on the 3-word vocabulary. -/
theorem claim_C5_amended_witness :
    parseMxmRow "TRAAAAA128F" = none ∧
    tuple_to_bow ["x:1"] ["w"] = none ∧
    tuple_to_bow ["1:y"] ["w"] = none ∧
    tuple_to_bow ["4:1"] ["word1", "word2", "word3"] = none ∧
    tuple_to_bow ["0:1"] ["word1", "word2", "word3"]
      = some (["word1", "word2", "word3"].getLastD "") :=
  ⟨claim_C5_amended.1 "TRAAAAA128F" (by decide),
   claim_C5_amended.2.1 ["w"] ["x:1"] "x:1" (by decide) (by decide),
   claim_C5_amended.2.2.1 ["w"] ["1:y"] "1:y" (by decide) (by decide),
   claim_C5_amended.2.2.2.1 ["word1", "word2", "word3"] ["4:1"] "4:1" 4
     (by decide) (by decide) (by decide),
   claim_C5_amended.2.2.2.2 ["word1", "word2", "word3"] (by decide) (by decide)⟩

end SongsRec
